import Mathlib

/-!
Shallow embedding of the go-safeweb fragment:
* `src/safehttp/form.go` — the `Form` typed accessor layer over parsed
  HTTP form/query values (scalar getters `Int64`, `Uint64`, `String`,
  `Float64`, `Bool`, the slice getter `Slice`, the helper `clearSlice`,
  and the error accessor `Err`), and
* the `StatusCode` constant block (`src/unnamed/part_000`).

Modelling conventions:
* A Go `map[string][]string` is an association list
  `List (String × List String)`; `List.lookup` plays the role of the
  two-result map read `vals, ok := f.values[paramKey]`.
* The Go `error` slot is `Option GoError`; `none` is a nil error.
* Every getter that indexes `vals[0]` would panic in Go when the value
  list is empty; the embedding returns `none : Option (α × Form)` for
  that runtime panic and `some (result, updatedForm)` for a normal
  return.
* `strconv.ParseInt(s, 10, 64)`, `strconv.ParseUint(s, 10, 64)` and
  `strconv.ParseFloat(s, 64)` are external standard-library calls; they
  are modelled below (`parseInt64`, `parseUint64`, `parseFloat64`)
  following Go's documented base-10 / float syntax.
-/

/-- The errors that can reach the `Form` error slot:
`strconv.NumError` values (function name, offending string, reason),
the `fmt.Errorf("values of form parameter %q not a boolean", paramKey)`
error built by `Form.Bool` and the bool case of `Form.Slice`, and the
`fmt.Errorf("type not supported in Slice call: %T", vs)` error built by
`clearSlice`. -/
inductive GoError where
  | numError (fn : String) (num : String) (reason : String)
  | boolParse (paramKey : String)
  | unsupportedType (typeName : String)
  deriving DecidableEq, Repr

/-- Go: `type StatusCode int`. -/
abbrev StatusCode := Int

/-- Go: `StatusOK StatusCode = 200`. -/
def StatusOK : StatusCode := 200

/-- Go: `StatusMovedPermanently StatusCode = 301`. -/
def StatusMovedPermanently : StatusCode := 301

/-- Go: `StatusBadRequest StatusCode = 400`. -/
def StatusBadRequest : StatusCode := 400

/-- Go: `StatusUnauthorized StatusCode = 401`. -/
def StatusUnauthorized : StatusCode := 401

/-- Go: `StatusForbidden StatusCode = 403`. -/
def StatusForbidden : StatusCode := 403

/-- Go: `StatusInternalServerError StatusCode = 500`. -/
def StatusInternalServerError : StatusCode := 500

/-- The whole `const (...)` block of the status-code file, in source
order: these six names are the entire enumeration. -/
def statusCodeConstants : List (String × StatusCode) :=
  [("StatusOK", StatusOK),
   ("StatusMovedPermanently", StatusMovedPermanently),
   ("StatusBadRequest", StatusBadRequest),
   ("StatusUnauthorized", StatusUnauthorized),
   ("StatusForbidden", StatusForbidden),
   ("StatusInternalServerError", StatusInternalServerError)]

/-- Numeric value of a decimal digit string (`'0'` has code 48). -/
def digitsVal (cs : List Char) : Nat :=
  cs.foldl (fun acc c => acc * 10 + (c.toNat - 48)) 0

/-- All characters are decimal digits. -/
def allDigits (cs : List Char) : Bool :=
  cs.all Char.isDigit

/-- 2^63 - 1, the largest int64. -/
def int64Max : Int := 9223372036854775807

/-- -2^63, the smallest int64. -/
def int64Min : Int := -9223372036854775808

/-- 2^64 - 1, the largest uint64. -/
def uint64Max : Nat := 18446744073709551615

/-- Model of `strconv.ParseInt(s, 10, 64)`: an optional `+`/`-` sign
followed by one or more decimal digits (base 10 permits no underscores),
with the value required to fit in int64. Go additionally returns the
clamped boundary value together with a range error; the callers in
`form.go` discard the value whenever the error is non-nil, so the model
only carries the error in that case. -/
def parseInt64 (s : String) : Except GoError Int :=
  let cs := s.data
  let signAndDigits : Bool × List Char :=
    match cs with
    | '-' :: rest => (true, rest)
    | '+' :: rest => (false, rest)
    | _ => (false, cs)
  let neg := signAndDigits.1
  let ds := signAndDigits.2
  if ds.isEmpty || !allDigits ds then
    .error (.numError "ParseInt" s "invalid syntax")
  else
    let v : Int := if neg then -(digitsVal ds : Int) else (digitsVal ds : Int)
    if v < int64Min || int64Max < v then
      .error (.numError "ParseInt" s "value out of range")
    else
      .ok v

/-- Model of `strconv.ParseUint(s, 10, 64)`: one or more decimal digits,
no sign permitted, value required to fit in uint64. -/
def parseUint64 (s : String) : Except GoError Nat :=
  let cs := s.data
  if cs.isEmpty || !allDigits cs then
    .error (.numError "ParseUint" s "invalid syntax")
  else
    let v := digitsVal cs
    if uint64Max < v then
      .error (.numError "ParseUint" s "value out of range")
    else
      .ok v

/-- An IEEE-754 double produced by `strconv.ParseFloat(s, 64)`.  The
numeric value is represented abstractly by the accepted literal: no part
of `form.go` inspects the parsed float beyond storing and returning it,
so the embedding only needs parse success/failure and value identity
per accepted literal. -/
structure GoFloat where
  lit : String
  deriving DecidableEq, Repr

/-- All characters are hexadecimal digits. -/
def allHexDigits (cs : List Char) : Bool :=
  cs.all fun c => c.isDigit || ('a' ≤ c && c ≤ 'f') || ('A' ≤ c && c ≤ 'F')

/-- Split at the first character satisfying `p`: the prefix before it
and, when found, the remainder after it. -/
def splitOnPred (p : Char → Bool) : List Char → List Char × Option (List Char)
  | [] => ([], none)
  | x :: xs =>
    if p x then ([], some xs)
    else
      let r := splitOnPred p xs
      (x :: r.1, r.2)

/-- The scanning loop of Go strconv's `underscoreOK`: `saw` tracks the
class of the previous character — `^` at the start of the number, `0`
after a digit (or base prefix), `_` after an underscore, `!` after
anything else.  An underscore must follow a digit and be followed by a
digit; the string must not end in an underscore. -/
def underscoreLoop (hex : Bool) : List Char → Char → Bool
  | [], saw => saw ≠ '_'
  | c :: rest, saw =>
    if c.isDigit || (hex && 'a' ≤ c.toLower && c.toLower ≤ 'f') then
      underscoreLoop hex rest '0'
    else if c = '_' then
      if saw = '0' then underscoreLoop hex rest '_' else false
    else if saw = '_' then false
    else underscoreLoop hex rest '!'

/-- Go strconv's `underscoreOK(s)`: underscores may appear only between
successive digits or between a base prefix and a digit.  An optional
sign is skipped; a `0b`/`0o`/`0x` base prefix counts as a digit for the
separator rule and, for `0x`, widens the digit set to hexadecimal. -/
def underscoreOK (cs : List Char) : Bool :=
  let cs1 :=
    match cs with
    | '+' :: rest => rest
    | '-' :: rest => rest
    | _ => cs
  match cs1 with
  | '0' :: b :: rest =>
    if b.toLower = 'b' || b.toLower = 'o' || b.toLower = 'x' then
      underscoreLoop (b.toLower = 'x') rest '0'
    else
      underscoreLoop false cs1 '^'
  | _ => underscoreLoop false cs1 '^'

/-- The exponent accumulation of Go strconv's `readFloat`: decimal
digits are folded in, but the running value stops growing once it has
reached 10000 (huge literal exponents saturate). -/
def go10ExpClamped (cs : List Char) : Nat :=
  cs.foldl (fun e c => if e < 10000 then e * 10 + (c.toNat - 48) else e) 0

/-- Value of one hexadecimal digit (`'a'` has code 97). -/
def hexDigitVal (c : Char) : Nat :=
  if c.isDigit then c.toNat - 48 else c.toLower.toNat - 87

/-- Numeric value of a hexadecimal digit string. -/
def hexDigitsVal (cs : List Char) : Nat :=
  cs.foldl (fun a c => a * 16 + hexDigitVal c) 0

/-- Smallest magnitude that `strconv.ParseFloat(s, 64)` rounds to ±Inf
and reports with ErrRange: half an ULP above the largest finite
float64, 2^1024 - 2^970 = 2^970 * (2^54 - 1).  IEEE ties-to-even rounds
this exact halfway value up to 2^1024, so the boundary itself already
overflows. -/
def floatOverflowBound : Nat := 2 ^ 970 * (2 ^ 54 - 1)

/-- Whether the exact value `d * b^k` (mantissa integer `d`, signed
scaled exponent `k`, base `b`) reaches `floatOverflowBound`, by exact
integer comparison.  A zero mantissa never overflows, whatever the
exponent. -/
def scaledOverflows (d b : Nat) (k : Int) : Bool :=
  if d = 0 then false
  else if 0 ≤ k then decide (floatOverflowBound ≤ d * b ^ k.toNat)
  else decide (floatOverflowBound * b ^ (-k).toNat ≤ d)

/-- Exponent part after `e`/`E`/`p`/`P`: the sign and the remaining
characters (which must be decimal digits). -/
def expParts (cs : List Char) : Int × List Char :=
  match cs with
  | '+' :: rest => (1, rest)
  | '-' :: rest => (-1, rest)
  | _ => (1, cs)

/-- Decimal float body: digits with at most one `.` and at least one
digit (`123`, `123.`, `.5`, `1.5`), then an optional `e`/`E` exponent
with optional sign and mandatory digits.  `none` is a syntax error;
`some ovf` is a successful parse, `ovf` reporting whether the exact
value mantissa * 10^(exp - fracDigits) reaches the overflow bound. -/
def decFloatParse (cs : List Char) : Option Bool :=
  let r := splitOnPred (fun c => c = 'e' || c = 'E') cs
  let m := splitOnPred (fun c => c = '.') r.1
  let intPart := m.1
  let fracPart := (m.2).getD []
  if !(allDigits intPart && allDigits fracPart) ||
      (intPart.isEmpty && fracPart.isEmpty) then
    none
  else
    match r.2 with
    | none =>
      some (scaledOverflows (digitsVal (intPart ++ fracPart)) 10
        (-(fracPart.length : Int)))
    | some ep =>
      let es := expParts ep
      if es.2.isEmpty || !allDigits es.2 then none
      else
        some (scaledOverflows (digitsVal (intPart ++ fracPart)) 10
          (es.1 * (go10ExpClamped es.2 : Int) - (fracPart.length : Int)))

/-- Hexadecimal float body after the `0x`/`0X` prefix: hex digits with
at most one `.` and at least one digit, then a mandatory `p`/`P`
decimal exponent; the exact value is mantissa * 2^(exp - 4*fracDigits). -/
def hexFloatParse (cs : List Char) : Option Bool :=
  let r := splitOnPred (fun c => c = 'p' || c = 'P') cs
  match r.2 with
  | none => none
  | some ep =>
    let m := splitOnPred (fun c => c = '.') r.1
    let intPart := m.1
    let fracPart := (m.2).getD []
    if !(allHexDigits intPart && allHexDigits fracPart) ||
        (intPart.isEmpty && fracPart.isEmpty) then
      none
    else
      let es := expParts ep
      if es.2.isEmpty || !allDigits es.2 then none
      else
        some (scaledOverflows (hexDigitsVal (intPart ++ fracPart)) 2
          (es.1 * (go10ExpClamped es.2 : Int) - 4 * (fracPart.length : Int)))

/-- Float body after the optional leading sign: `inf`/`infinity`
(case-insensitive, never out of range), a hexadecimal float, or a
decimal float. -/
def floatBodyParse (cs : List Char) : Option Bool :=
  let lower := cs.map Char.toLower
  if lower = "inf".data || lower = "infinity".data then some false
  else
    match cs with
    | '0' :: x :: rest =>
      if x = 'x' || x = 'X' then hexFloatParse rest
      else decFloatParse cs
    | _ => decFloatParse cs

/-- Model of `strconv.ParseFloat(s, 64)`: an unsigned `nan`, or an
optional sign followed by `inf`/`infinity`, a hexadecimal float, or a
decimal float, case-insensitive where Go is.  Underscores follow Go's
`underscoreOK` rule (only between successive digits or after a base
prefix) and are otherwise transparent.  A well-formed finite literal
whose exact magnitude reaches `floatOverflowBound` gets the ErrRange
"value out of range" error, with the literal exponent saturated at
10000 exactly as in `readFloat`; underflow is not an error in Go
(`decimal.floatBits` reports only overflow), so tiny literals such as
`1e-400` succeed with value 0. -/
def parseFloat64 (s : String) : Except GoError GoFloat :=
  let cs := s.data
  if cs.contains '_' && !underscoreOK cs then
    .error (.numError "ParseFloat" s "invalid syntax")
  else
    let cs2 := cs.filter (fun c => c ≠ '_')
    if cs2.map Char.toLower = "nan".data then .ok ⟨s⟩
    else
      let body :=
        match cs2 with
        | '+' :: rest => rest
        | '-' :: rest => rest
        | _ => cs2
      match floatBodyParse body with
      | none => .error (.numError "ParseFloat" s "invalid syntax")
      | some ovf =>
        if ovf then .error (.numError "ParseFloat" s "value out of range")
        else .ok ⟨s⟩

/-- The bool token rule shared by `Form.Bool` and the `*[]bool` case of
`Form.Slice`: only the literal tokens `"true"` and `"false"` convert;
anything else yields the formatted not-a-boolean error naming the
parameter key. -/
def parseBoolToken (paramKey : String) (v : String) : Except GoError Bool :=
  if v = "true" then .ok true
  else if v = "false" then .ok false
  else .error (.boolParse paramKey)

/-- Go: `type Form struct { values map[string][]string; err error }`. -/
structure Form where
  values : List (String × List String)
  err : Option GoError
  deriving DecidableEq, Repr

/-- Go: `func (f *Form) Int64(paramKey string, defaultValue int64) int64`.
`none` models the index-out-of-range panic of `vals[0]` on an empty
value list; otherwise the result pairs the returned int64 with the form
after the call. -/
def Form.Int64 (f : Form) (paramKey : String) (defaultValue : Int) :
    Option (Int × Form) :=
  match f.values.lookup paramKey with
  | none => some (defaultValue, f)
  | some vals =>
    match vals.head? with
    | none => none
    | some v0 =>
      match parseInt64 v0 with
      | .ok paramVal => some (paramVal, f)
      | .error e => some (defaultValue, { f with err := some e })

/-- Go: `func (f *Form) Uint64(paramKey string, defaultValue uint64) uint64`. -/
def Form.Uint64 (f : Form) (paramKey : String) (defaultValue : Nat) :
    Option (Nat × Form) :=
  match f.values.lookup paramKey with
  | none => some (defaultValue, f)
  | some vals =>
    match vals.head? with
    | none => none
    | some v0 =>
      match parseUint64 v0 with
      | .ok paramVal => some (paramVal, f)
      | .error e => some (defaultValue, { f with err := some e })

/-- Go: `func (f *Form) Float64(paramKey string, defaultValue float64) float64`. -/
def Form.Float64 (f : Form) (paramKey : String) (defaultValue : GoFloat) :
    Option (GoFloat × Form) :=
  match f.values.lookup paramKey with
  | none => some (defaultValue, f)
  | some vals =>
    match vals.head? with
    | none => none
    | some v0 =>
      match parseFloat64 v0 with
      | .ok paramVal => some (paramVal, f)
      | .error e => some (defaultValue, { f with err := some e })

/-- Go: `func (f *Form) Bool(paramKey string, defaultValue bool) bool`.
The switch returns `true` for `"true"` and `false` for `"false"`; the
default case sets the error and then falls through to the trailing
`return false` — the default value is NOT returned on a parse failure. -/
def Form.Bool (f : Form) (paramKey : String) (defaultValue : Bool) :
    Option (Bool × Form) :=
  match f.values.lookup paramKey with
  | none => some (defaultValue, f)
  | some vals =>
    match vals.head? with
    | none => none
    | some v0 =>
      if v0 = "true" then some (true, f)
      else if v0 = "false" then some (false, f)
      else some (false, { f with err := some (.boolParse paramKey) })

/-- The destination of a `Form.Slice` call: the Go `slicePtr
interface{}` argument together with the slice it points to.  The five
supported pointer types carry their current contents; `unsupported`
stands for a pointer of any other type, carrying the rendering of that
type by `%T`. -/
inductive SliceDest where
  | strs (xs : List String)
  | int64s (xs : List Int)
  | float64s (xs : List GoFloat)
  | uint64s (xs : List Nat)
  | bools (xs : List Bool)
  | unsupported (typeName : String)
  deriving DecidableEq, Repr

/-- Go: `func clearSlice(slicePtr interface{}) error`.  Sets a supported
destination to nil and returns a nil error; leaves an unsupported
destination untouched and returns the type-not-supported error. -/
def clearSlice : SliceDest → SliceDest × Option GoError
  | .strs _ => (.strs [], none)
  | .int64s _ => (.int64s [], none)
  | .float64s _ => (.float64s [], none)
  | .uint64s _ => (.uint64s [], none)
  | .bools _ => (.bools [], none)
  | .unsupported t => (.unsupported t, some (.unsupportedType t))

/-- The per-type loop body of `Form.Slice`: convert every value in
order; the first conversion failure aborts with that error. -/
def convList (p : String → Except GoError α) : List String → Except GoError (List α)
  | [] => .ok []
  | x :: xs =>
    match p x with
    | .error e => .error e
    | .ok v =>
      match convList p xs with
      | .error e => .error e
      | .ok res => .ok (v :: res)

/-- Go: `func (f *Form) Slice(slicePtr interface{}, paramKey string)`.
Returns the destination after the call and the form after the call.
Absent key: `f.err = clearSlice(slicePtr)`.  Present key: dispatch on
the destination type; each supported case converts every value in
order, and on the first failure sets `f.err`, nils the destination and
returns; the default case is again `f.err = clearSlice(slicePtr)`. -/
def Form.Slice (f : Form) (dest : SliceDest) (paramKey : String) :
    SliceDest × Form :=
  match f.values.lookup paramKey with
  | none =>
    let r := clearSlice dest
    (r.1, { f with err := r.2 })
  | some mapVals =>
    match dest with
    | .strs _ => (.strs mapVals, f)
    | .int64s _ =>
      match convList parseInt64 mapVals with
      | .ok res => (.int64s res, f)
      | .error e => (.int64s [], { f with err := some e })
    | .uint64s _ =>
      match convList parseUint64 mapVals with
      | .ok res => (.uint64s res, f)
      | .error e => (.uint64s [], { f with err := some e })
    | .float64s _ =>
      match convList parseFloat64 mapVals with
      | .ok res => (.float64s res, f)
      | .error e => (.float64s [], { f with err := some e })
    | .bools _ =>
      match convList (parseBoolToken paramKey) mapVals with
      | .ok res => (.bools res, f)
      | .error e => (.bools [], { f with err := some e })
    | .unsupported _ =>
      let r := clearSlice dest
      (r.1, { f with err := r.2 })

/-- Go: `func (f *Form) Err() error`. -/
def Form.Err (f : Form) : Option GoError :=
  f.err

/-- Alias for the built-in string type, needed only in the signature of
`Form.String` below, where the plain name `String` would resolve to the
getter being declared. -/
abbrev StdString := String

/-- Go: `func (f *Form) String(paramKey string, defaultValue string) string`.
Declared after the other `Form` members because its name shadows the
string type inside the `Form` namespace. -/
def Form.String (f : Form) (paramKey : StdString) (defaultValue : StdString) :
    Option (StdString × Form) :=
  match f.values.lookup paramKey with
  | none => some (defaultValue, f)
  | some vals =>
    match vals.head? with
    | none => none
    | some v0 => some (v0, f)

/-- C8: each of the six named status constants equals its documented
IANA numeric value, and `statusCodeConstants` — the transcription of the
whole `const` block — contains exactly those six names with those
values, so the enumeration is closed. -/
theorem status_code_enumeration_values :
    StatusOK = 200 ∧ StatusMovedPermanently = 301 ∧ StatusBadRequest = 400 ∧
    StatusUnauthorized = 401 ∧ StatusForbidden = 403 ∧
    StatusInternalServerError = 500 ∧
    statusCodeConstants =
      [("StatusOK", 200), ("StatusMovedPermanently", 301),
       ("StatusBadRequest", 400), ("StatusUnauthorized", 401),
       ("StatusForbidden", 403), ("StatusInternalServerError", 500)] :=
  ⟨rfl, rfl, rfl, rfl, rfl, rfl, rfl⟩

/-- C1 (divergence witness): with values `{"b" ↦ ["maybe"]}` and
default value `true`, `Form.Bool` returns `false` — not the supplied
default — while setting the error slot.  The Go switch's default case
sets `f.err` and then falls through to the function's trailing
`return false`, contradicting both the claim and the function's own doc
comment ("it will return the default value"). -/
theorem bool_invalid_token_returns_false_not_default :
    (Form.mk [("b", ["maybe"])] none).Bool "b" true =
      some (false, Form.mk [("b", ["maybe"])] (some (GoError.boolParse "b"))) :=
  rfl

/-- C2: for a key absent from the values map, each scalar getter
(`Int64`, `Uint64`, `String`, `Float64`, `Bool`) returns exactly the
supplied default and leaves the whole form — in particular the error
slot — unchanged. -/
theorem absent_key_scalar_getters_return_default (f : Form) (k : String)
    (h : f.values.lookup k = none)
    (di : Int) (du : Nat) (ds : String) (df : GoFloat) (db : Bool) :
    f.Int64 k di = some (di, f) ∧ f.Uint64 k du = some (du, f) ∧
    f.String k ds = some (ds, f) ∧ f.Float64 k df = some (df, f) ∧
    f.Bool k db = some (db, f) := by
  refine ⟨?_, ?_, ?_, ?_, ?_⟩ <;>
    simp [Form.Int64, Form.Uint64, Form.String, Form.Float64, Form.Bool, h]

/-- Witness for C2 at the concrete form `{values: {"a": ["1"]}, err: nil}`
and key `"k"`. -/
theorem absent_key_scalar_getters_return_default_witness :
    (Form.mk [("a", ["1"])] none).Int64 "k" 7 =
        some (7, Form.mk [("a", ["1"])] none) ∧
    (Form.mk [("a", ["1"])] none).Uint64 "k" 3 =
        some (3, Form.mk [("a", ["1"])] none) ∧
    (Form.mk [("a", ["1"])] none).String "k" "d" =
        some ("d", Form.mk [("a", ["1"])] none) ∧
    (Form.mk [("a", ["1"])] none).Float64 "k" ⟨"0"⟩ =
        some (⟨"0"⟩, Form.mk [("a", ["1"])] none) ∧
    (Form.mk [("a", ["1"])] none).Bool "k" true =
        some (true, Form.mk [("a", ["1"])] none) :=
  absent_key_scalar_getters_return_default (Form.mk [("a", ["1"])] none) "k"
    rfl 7 3 "d" ⟨"0"⟩ true

/-- C7: on a present key with a first value, `Form.Bool` returns `true`
for the exact token `"true"` and `false` for the exact token `"false"`,
leaving the form unchanged in both cases; any other first value sets the
error slot to the not-a-boolean error for that key. -/
theorem bool_token_rule (f : Form) (k : String) (d : Bool)
    (v : String) (rest : List String)
    (h : f.values.lookup k = some (v :: rest)) :
    (v = "true" → f.Bool k d = some (true, f)) ∧
    (v = "false" → f.Bool k d = some (false, f)) ∧
    (v ≠ "true" → v ≠ "false" →
      f.Bool k d = some (false, { f with err := some (.boolParse k) })) := by
  refine ⟨?_, ?_, ?_⟩
  · intro hv; subst hv; simp [Form.Bool, h]
  · intro hv; subst hv; simp [Form.Bool, h]
  · intro hv1 hv2; simp [Form.Bool, h, hv1, hv2]

/-- Witness for C7 at `{"b": ["true"]}`, `{"b": ["false"]}` and
`{"b": ["maybe"]}`. -/
theorem bool_token_rule_witness :
    (Form.mk [("b", ["true"])] none).Bool "b" false =
        some (true, Form.mk [("b", ["true"])] none) ∧
    (Form.mk [("b", ["false"])] none).Bool "b" true =
        some (false, Form.mk [("b", ["false"])] none) ∧
    (Form.mk [("b", ["maybe"])] none).Bool "b" false =
        some (false, { Form.mk [("b", ["maybe"])] none with
                        err := some (.boolParse "b") }) :=
  ⟨(bool_token_rule (Form.mk [("b", ["true"])] none) "b" false "true" []
      rfl).1 rfl,
   (bool_token_rule (Form.mk [("b", ["false"])] none) "b" true "false" []
      rfl).2.1 rfl,
   (bool_token_rule (Form.mk [("b", ["maybe"])] none) "b" false "maybe" []
      rfl).2.2 (by decide) (by decide)⟩

/-- C10: the `String` getter can never fail: on an absent key it returns
the default, on a present key with a first value it returns that first
value verbatim; in both cases the form — and so the error slot — is
returned unchanged. -/
theorem string_getter_never_fails (f : Form) (k d : String) :
    (f.values.lookup k = none → f.String k d = some (d, f)) ∧
    ∀ v rest, f.values.lookup k = some (v :: rest) → f.String k d = some (v, f) := by
  constructor
  · intro h; simp [Form.String, h]
  · intro v rest h; simp [Form.String, h]

/-- Witness for C10 on a present key carrying `["val"]` and on an absent
key. -/
theorem string_getter_never_fails_witness :
    (Form.mk [("k", ["val"])] none).String "k" "d" =
        some ("val", Form.mk [("k", ["val"])] none) ∧
    (Form.mk [] none).String "k" "d" = some ("d", Form.mk [] none) :=
  ⟨(string_getter_never_fails (Form.mk [("k", ["val"])] none) "k" "d").2
      "val" [] rfl,
   (string_getter_never_fails (Form.mk [] none) "k" "d").1 rfl⟩

/-- C5: on an absent key, `Slice` with any supported destination type
sets the destination to nil and assigns the error slot the nil result of
`clearSlice` — overwriting whatever error was recorded before. -/
theorem slice_absent_key_clears_and_resets_err (f : Form) (k : String)
    (h : f.values.lookup k = none) :
    (∀ ds : List String, f.Slice (.strs ds) k = (.strs [], { f with err := none })) ∧
    (∀ ds : List Int, f.Slice (.int64s ds) k = (.int64s [], { f with err := none })) ∧
    (∀ ds : List Nat, f.Slice (.uint64s ds) k = (.uint64s [], { f with err := none })) ∧
    (∀ ds : List GoFloat, f.Slice (.float64s ds) k = (.float64s [], { f with err := none })) ∧
    (∀ ds : List Bool, f.Slice (.bools ds) k = (.bools [], { f with err := none })) := by
  refine ⟨fun ds => ?_, fun ds => ?_, fun ds => ?_, fun ds => ?_, fun ds => ?_⟩ <;>
    simp [Form.Slice, clearSlice, h]

/-- Witness for C5 at a form that carries a previously recorded error:
the call overwrites the error slot to nil. -/
theorem slice_absent_key_clears_and_resets_err_witness :
    (Form.mk [("a", ["1"])] (some (GoError.boolParse "old"))).Slice
        (.int64s [9, 9]) "k" =
      (.int64s [], { Form.mk [("a", ["1"])] (some (GoError.boolParse "old")) with
                      err := none }) :=
  (slice_absent_key_clears_and_resets_err
      (Form.mk [("a", ["1"])] (some (GoError.boolParse "old"))) "k" rfl).2.1 [9, 9]

/-- C6: `Slice` on a destination of unsupported element type records the
type-not-supported error and leaves the destination untouched, whether
the key is present in the values map or absent. -/
theorem slice_unsupported_type_error (f : Form) (k t : String) :
    f.Slice (.unsupported t) k =
      (.unsupported t, { f with err := some (.unsupportedType t) }) := by
  unfold Form.Slice
  cases h : f.values.lookup k <;> simp [clearSlice]

/-- First error produced by converting the values in order: the head of
the errors of the failing conversions.  This is the specification-side
reading of "stops at the first failing value". -/
def firstConvError (p : String → Except GoError α) (vals : List String) :
    Option GoError :=
  (vals.filterMap fun v =>
    match p v with
    | .ok _ => none
    | .error e => some e).head?

/-- If some value in the list fails to convert, the conversion loop
aborts with exactly the error of the first failing value. -/
theorem convList_error_of_exists (p : String → Except GoError α)
    (vals : List String) (h : ∃ v ∈ vals, ∃ e, p v = .error e) :
    ∃ e, firstConvError p vals = some e ∧ convList p vals = .error e := by
  induction vals with
  | nil => simp at h
  | cons x xs ih =>
    cases hx : p x with
    | error e =>
      exact ⟨e, by simp [firstConvError, hx], by simp [convList, hx]⟩
    | ok v =>
      have h2 : ∃ w ∈ xs, ∃ e, p w = .error e := by
        rcases h with ⟨w, hw, e, he⟩
        rcases List.mem_cons.mp hw with hwx | hwxs
        · rw [hwx] at he; rw [he] at hx; cases hx
        · exact ⟨w, hwxs, e, he⟩
      rcases ih h2 with ⟨e, he1, he2⟩
      refine ⟨e, ?_, ?_⟩
      · simpa [firstConvError, hx] using he1
      · simp [convList, hx, he2]

/-- Specification-side statement that every value converts, with the
results in order: `convertedAll p vals = some res` holds exactly when
each value of `vals` converts under `p` and `res` lists the conversion
results in the order the values appear. -/
def convertedAll (p : String → Except GoError α) : List String → Option (List α)
  | [] => some []
  | x :: xs =>
    match p x with
    | .error _ => none
    | .ok v => (convertedAll p xs).map (fun res => v :: res)

/-- When every value converts, the conversion loop returns exactly the
converted values in order. -/
theorem convList_of_convertedAll (p : String → Except GoError α)
    (vals : List String) (res : List α)
    (h : convertedAll p vals = some res) : convList p vals = .ok res := by
  induction vals generalizing res with
  | nil => simp [convertedAll] at h; simp [convList, ← h]
  | cons x xs ih =>
    cases hx : p x with
    | error e => simp [convertedAll, hx] at h
    | ok v =>
      simp only [convertedAll, hx] at h
      cases hxs : convertedAll p xs with
      | none => rw [hxs] at h; cases h
      | some res2 =>
        rw [hxs] at h
        simp at h
        simp [convList, hx, ih res2 hxs, ← h]

/-- C3: on a present key, if some value in the list fails to convert to
the destination element type (int64, uint64, float64 or bool), `Slice`
sets the destination to nil — never a partial prefix — and records in
the error slot the error of the first failing value. -/
theorem slice_conversion_failure_clears_destination (f : Form) (k : String)
    (vals : List String) (h : f.values.lookup k = some vals) :
    (∀ d0 : List Int, (∃ v ∈ vals, ∃ e, parseInt64 v = .error e) →
      ∃ e, firstConvError parseInt64 vals = some e ∧
        f.Slice (.int64s d0) k = (.int64s [], { f with err := some e })) ∧
    (∀ d0 : List Nat, (∃ v ∈ vals, ∃ e, parseUint64 v = .error e) →
      ∃ e, firstConvError parseUint64 vals = some e ∧
        f.Slice (.uint64s d0) k = (.uint64s [], { f with err := some e })) ∧
    (∀ d0 : List GoFloat, (∃ v ∈ vals, ∃ e, parseFloat64 v = .error e) →
      ∃ e, firstConvError parseFloat64 vals = some e ∧
        f.Slice (.float64s d0) k = (.float64s [], { f with err := some e })) ∧
    (∀ d0 : List Bool, (∃ v ∈ vals, ∃ e, parseBoolToken k v = .error e) →
      ∃ e, firstConvError (parseBoolToken k) vals = some e ∧
        f.Slice (.bools d0) k = (.bools [], { f with err := some e })) := by
  refine ⟨fun d0 hex => ?_, fun d0 hex => ?_, fun d0 hex => ?_,
    fun d0 hex => ?_⟩ <;>
  · obtain ⟨e, he1, he2⟩ := convList_error_of_exists _ vals hex
    exact ⟨e, he1, by simp [Form.Slice, h, he2]⟩

/-- Witness for C3: `{"xs": ["1", "2", "x"]}` into an int64 destination
holding `[5]` ends nil with the ParseInt error for `"x"` recorded — no
partial `[1, 2]`. -/
theorem slice_conversion_failure_clears_destination_witness :
    ∃ e, firstConvError parseInt64 ["1", "2", "x"] = some e ∧
      (Form.mk [("xs", ["1", "2", "x"])] none).Slice (.int64s [5]) "xs" =
        (.int64s [],
         { Form.mk [("xs", ["1", "2", "x"])] none with err := some e }) :=
  (slice_conversion_failure_clears_destination
      (Form.mk [("xs", ["1", "2", "x"])] none) "xs" ["1", "2", "x"] rfl).1 [5]
    ⟨"x", by decide, GoError.numError "ParseInt" "x" "invalid syntax", rfl⟩

/-- C4: on a present key, when every value in the list converts to the
destination element type, `Slice` sets the destination to exactly the
converted values in the order they appear in the value list and the form
is otherwise unchanged — in particular the error slot is not modified. -/
theorem slice_all_values_convert (f : Form) (k : String)
    (vals : List String) (h : f.values.lookup k = some vals) :
    (∀ d0 : List String, f.Slice (.strs d0) k = (.strs vals, f)) ∧
    (∀ d0 : List Int, ∀ res, convertedAll parseInt64 vals = some res →
        f.Slice (.int64s d0) k = (.int64s res, f)) ∧
    (∀ d0 : List Nat, ∀ res, convertedAll parseUint64 vals = some res →
        f.Slice (.uint64s d0) k = (.uint64s res, f)) ∧
    (∀ d0 : List GoFloat, ∀ res, convertedAll parseFloat64 vals = some res →
        f.Slice (.float64s d0) k = (.float64s res, f)) ∧
    (∀ d0 : List Bool, ∀ res, convertedAll (parseBoolToken k) vals = some res →
        f.Slice (.bools d0) k = (.bools res, f)) := by
  refine ⟨fun d0 => ?_, fun d0 res hres => ?_, fun d0 res hres => ?_,
    fun d0 res hres => ?_, fun d0 res hres => ?_⟩
  · simp [Form.Slice, h]
  all_goals simp [Form.Slice, h, convList_of_convertedAll _ vals res hres]

/-- Witness for C4 on string, int64 and bool destinations with all
values converting. -/
theorem slice_all_values_convert_witness :
    (Form.mk [("xs", ["1", "2"])] none).Slice (.strs ["old"]) "xs" =
        (.strs ["1", "2"], Form.mk [("xs", ["1", "2"])] none) ∧
    (Form.mk [("xs", ["1", "2"])] none).Slice (.int64s [9]) "xs" =
        (.int64s [1, 2], Form.mk [("xs", ["1", "2"])] none) ∧
    (Form.mk [("bs", ["true", "false"])] none).Slice (.bools []) "bs" =
        (.bools [true, false], Form.mk [("bs", ["true", "false"])] none) :=
  ⟨(slice_all_values_convert (Form.mk [("xs", ["1", "2"])] none) "xs"
      ["1", "2"] rfl).1 ["old"],
   (slice_all_values_convert (Form.mk [("xs", ["1", "2"])] none) "xs"
      ["1", "2"] rfl).2.1 [9] [1, 2] rfl,
   (slice_all_values_convert (Form.mk [("bs", ["true", "false"])] none) "bs"
      ["true", "false"] rfl).2.2.2.2 [] [true, false] rfl⟩

/-- One getter call on a `Form`, as issued by handler code: each scalar
getter with its key and default, or a `Slice` call with its destination
and key. -/
inductive FormCall where
  | int64 (paramKey : String) (defaultValue : Int)
  | uint64 (paramKey : String) (defaultValue : Nat)
  | str (paramKey : String) (defaultValue : String)
  | float64 (paramKey : String) (defaultValue : GoFloat)
  | bool (paramKey : String) (defaultValue : Bool)
  | slice (dest : SliceDest) (paramKey : String)
  deriving DecidableEq, Repr

/-- Execute one call, keeping the form it leaves behind; `none` is the
Go index-out-of-range panic propagated from the getter. -/
def stepCall (f : Form) : FormCall → Option Form
  | .int64 k d => (f.Int64 k d).map Prod.snd
  | .uint64 k d => (f.Uint64 k d).map Prod.snd
  | .str k d => (f.String k d).map Prod.snd
  | .float64 k d => (f.Float64 k d).map Prod.snd
  | .bool k d => (f.Bool k d).map Prod.snd
  | .slice dest k => some (f.Slice dest k).2

/-- Execute a sequence of getter calls left to right. -/
def runCalls (f : Form) : List FormCall → Option Form
  | [] => some f
  | c :: cs =>
    match stepCall f c with
    | none => none
    | some f2 => runCalls f2 cs

/-- The error-slot write a scalar getter performs, read off the values
map alone: `none` when the call leaves the slot untouched, `some w`
when it assigns `w` to the slot. -/
def scalarWrite (p : String → Except GoError α)
    (m : List (String × List String)) (k : String) :
    Option (Option GoError) :=
  match m.lookup k with
  | none => none
  | some vals =>
    match vals.head? with
    | none => none
    | some v =>
      match p v with
      | .ok _ => none
      | .error e => some (some e)

/-- The error-slot write of one call: `none` when the call does not
assign `f.err` at all, `some w` when it assigns the value `w` (which is
itself `none` for the nil assignment `f.err = clearSlice(slicePtr)` on
an absent key with a supported destination). -/
def errWrite (m : List (String × List String)) : FormCall → Option (Option GoError)
  | .int64 k _ => scalarWrite parseInt64 m k
  | .uint64 k _ => scalarWrite parseUint64 m k
  | .str _ _ => none
  | .float64 k _ => scalarWrite parseFloat64 m k
  | .bool k _ => scalarWrite (parseBoolToken k) m k
  | .slice dest k =>
    match m.lookup k with
    | none => some (clearSlice dest).2
    | some mapVals =>
      match dest with
      | .strs _ => none
      | .int64s _ =>
        match convList parseInt64 mapVals with
        | .ok _ => none
        | .error e => some (some e)
      | .uint64s _ =>
        match convList parseUint64 mapVals with
        | .ok _ => none
        | .error e => some (some e)
      | .float64s _ =>
        match convList parseFloat64 mapVals with
        | .ok _ => none
        | .error e => some (some e)
      | .bools _ =>
        match convList (parseBoolToken k) mapVals with
        | .ok _ => none
        | .error e => some (some e)
      | .unsupported t => some (some (.unsupportedType t))

/-- Each call leaves the values map unchanged, and its effect on the
error slot is exactly the write described by `errWrite`: the old
content when there is no write, the written value otherwise. -/
theorem stepCall_spec (c : FormCall) (f f2 : Form)
    (h : stepCall f c = some f2) :
    f2.values = f.values ∧ f2.err = (errWrite f.values c).getD f.err := by
  cases c with
  | int64 k d =>
    simp only [stepCall, Form.Int64] at h
    simp only [errWrite, scalarWrite]
    cases hm : f.values.lookup k with
    | none => simp only [hm] at h ⊢; simp at h; subst h; simp
    | some vals =>
      simp only [hm] at h ⊢
      cases hv : vals.head? with
      | none => simp [hv] at h
      | some v =>
        simp only [hv] at h ⊢
        cases hp : parseInt64 v with
        | ok x => simp only [hp] at h ⊢; simp at h; subst h; simp
        | error e => simp only [hp] at h ⊢; simp at h; subst h; simp
  | uint64 k d =>
    simp only [stepCall, Form.Uint64] at h
    simp only [errWrite, scalarWrite]
    cases hm : f.values.lookup k with
    | none => simp only [hm] at h ⊢; simp at h; subst h; simp
    | some vals =>
      simp only [hm] at h ⊢
      cases hv : vals.head? with
      | none => simp [hv] at h
      | some v =>
        simp only [hv] at h ⊢
        cases hp : parseUint64 v with
        | ok x => simp only [hp] at h ⊢; simp at h; subst h; simp
        | error e => simp only [hp] at h ⊢; simp at h; subst h; simp
  | str k d =>
    simp only [stepCall, Form.String] at h
    simp only [errWrite]
    cases hm : f.values.lookup k with
    | none => simp only [hm] at h; simp at h; subst h; simp
    | some vals =>
      simp only [hm] at h
      cases hv : vals.head? with
      | none => simp [hv] at h
      | some v => simp only [hv] at h; simp at h; subst h; simp
  | float64 k d =>
    simp only [stepCall, Form.Float64] at h
    simp only [errWrite, scalarWrite]
    cases hm : f.values.lookup k with
    | none => simp only [hm] at h ⊢; simp at h; subst h; simp
    | some vals =>
      simp only [hm] at h ⊢
      cases hv : vals.head? with
      | none => simp [hv] at h
      | some v =>
        simp only [hv] at h ⊢
        cases hp : parseFloat64 v with
        | ok x => simp only [hp] at h ⊢; simp at h; subst h; simp
        | error e => simp only [hp] at h ⊢; simp at h; subst h; simp
  | bool k d =>
    simp only [stepCall, Form.Bool] at h
    simp only [errWrite, scalarWrite, parseBoolToken]
    cases hm : f.values.lookup k with
    | none => simp only [hm] at h ⊢; simp at h; subst h; simp
    | some vals =>
      simp only [hm] at h ⊢
      cases hv : vals.head? with
      | none => simp [hv] at h
      | some v =>
        simp only [hv] at h ⊢
        by_cases h1 : v = "true"
        · simp only [h1, if_true, if_pos] at h ⊢; simp at h; subst h; simp
        · by_cases h2 : v = "false"
          · simp only [h1, h2, if_false, if_pos, if_neg] at h ⊢
            simp [h1] at h ⊢
            subst h; simp
          · simp only [if_neg h1, if_neg h2] at h ⊢
            simp at h; subst h; simp
  | slice dest k =>
    simp only [stepCall, Form.Slice] at h
    simp only [errWrite]
    cases hm : f.values.lookup k with
    | none =>
      simp only [hm] at h ⊢
      simp at h
      subst h
      simp
    | some mapVals =>
      simp only [hm] at h ⊢
      cases dest with
      | strs d0 => simp at h; subst h; simp
      | int64s d0 =>
        cases hc : convList parseInt64 mapVals with
        | ok res => simp only [hc] at h ⊢; simp at h; subst h; simp
        | error e => simp only [hc] at h ⊢; simp at h; subst h; simp
      | uint64s d0 =>
        cases hc : convList parseUint64 mapVals with
        | ok res => simp only [hc] at h ⊢; simp at h; subst h; simp
        | error e => simp only [hc] at h ⊢; simp at h; subst h; simp
      | float64s d0 =>
        cases hc : convList parseFloat64 mapVals with
        | ok res => simp only [hc] at h ⊢; simp at h; subst h; simp
        | error e => simp only [hc] at h ⊢; simp at h; subst h; simp
      | bools d0 =>
        cases hc : convList (parseBoolToken k) mapVals with
        | ok res => simp only [hc] at h ⊢; simp at h; subst h; simp
        | error e => simp only [hc] at h ⊢; simp at h; subst h; simp
      | unsupported t =>
        simp [clearSlice] at h
        subst h
        simp [clearSlice]

/-- `getD` of a cons under `getLast?`: the head becomes the fallback. -/
theorem getLast?_cons_getD (a : α) (l : List α) (d : α) :
    ((a :: l).getLast?).getD d = (l.getLast?).getD a := by
  cases l with
  | nil => rfl
  | cons b bs =>
    rw [List.getLast?_cons_cons]
    cases hx : (b :: bs).getLast? with
    | none => simp at hx
    | some x => simp

/-- C9: last-error-wins.  After any panic-free sequence of getter calls,
`Err()` returns exactly the value of the most recent write to the error
slot (each write overwrites the previous content), and the original
content when no call wrote to it; errors are never accumulated. -/
theorem err_slot_last_write_wins (f : Form) (calls : List FormCall)
    (f2 : Form) (h : runCalls f calls = some f2) :
    f2.Err = ((calls.filterMap (errWrite f.values)).getLast?).getD f.err := by
  induction calls generalizing f with
  | nil =>
    simp only [runCalls] at h
    injection h with h
    subst h
    simp [Form.Err]
  | cons c cs ih =>
    simp only [runCalls] at h
    cases hs : stepCall f c with
    | none => simp [hs] at h
    | some f1 =>
      simp only [hs] at h
      obtain ⟨hv, he⟩ := stepCall_spec c f f1 hs
      have ihh := ih f1 h
      cases hw : errWrite f.values c with
      | none =>
        simp only [List.filterMap_cons, hw]
        rw [ihh, hv, he, hw]
        simp
      | some w =>
        simp only [List.filterMap_cons, hw]
        rw [getLast?_cons_getD, ihh, hv, he, hw]
        simp

/-- Witness for C9: starting from an already-recorded error, an `Int64`
call on `{"n": ["abc"]}` writes a ParseInt error, then a `Slice` call on
an absent key writes nil; `Err()` ends at the last write, nil. -/
theorem err_slot_last_write_wins_witness :
    (Form.mk [("n", ["abc"])] none).Err =
      ((([FormCall.int64 "n" 7,
          FormCall.slice (SliceDest.int64s [1]) "zs"]).filterMap
          (errWrite [("n", ["abc"])])).getLast?).getD
        (some (GoError.boolParse "old")) :=
  err_slot_last_write_wins
    (Form.mk [("n", ["abc"])] (some (GoError.boolParse "old")))
    [FormCall.int64 "n" 7, FormCall.slice (SliceDest.int64s [1]) "zs"]
    (Form.mk [("n", ["abc"])] none) rfl
